import Mathlib

/-!
Verification development for the TylerAudio repository, centred on the
TingeTape tape-emulation plugin.

The C++ sources embedded here are:
  - src/shared/TylerAudioCommon.h            (TylerAudio::Utils)
  - src/plugins/TingeTape/Source/PluginProcessor.cpp / .h

Floating-point values are modelled as exact rationals (with a small
inductive wrapper adding the IEEE special values NaN and plus and minus
infinity where the behaviour on those values is the point at issue).
External library calls (std::tanh, the JUCE oscillator waveform, the JUCE
biquad coefficient constructors and decibel conversion) are modelled as
explicit function parameters bundled in an ExtFns record: none of the
properties proved below depends on their numeric values, and quantifying
over them keeps every definition computable.  The two places where the
genuine transcendental functions matter (SmoothingFilter.setSmoothingTime
and TapeSaturation.processSample at a concrete operating point) are
embedded a second time as Prop-valued step relations over the reals using
Mathlib's Real.exp and Real.tanh, which are noncomputable.
-/

namespace TylerAudio

namespace Utils

/-- Constants::kDenormalThreshold = 1e-15f (TylerAudioCommon.h, line 16). -/
def kDenormalThreshold : ℚ := 1 / 10 ^ 15

/-- Model of a C++ float: either a finite value (exact rational) or one of
the IEEE special values NaN, plus infinity, minus infinity. -/
inductive FVal where
  | nan : FVal
  | posInf : FVal
  | negInf : FVal
  | fin : ℚ → FVal
deriving DecidableEq, Repr

/-- IEEE semantics of std::abs on our float model: abs of NaN is NaN, abs
of either infinity is plus infinity. -/
def FVal.absF : FVal → FVal
  | .nan => .nan
  | .posInf => .posInf
  | .negInf => .posInf
  | .fin q => .fin |q|

/-- IEEE semantics of the comparison x < r against a finite literal r: any
comparison with NaN is false, posInf < r is false, negInf < r is true. -/
def FVal.ltFin : FVal → ℚ → Bool
  | .nan, _ => false
  | .posInf, _ => false
  | .negInf, _ => true
  | .fin q, r => decide (q < r)

/-- Shallow embedding of TylerAudio::Utils::sanitizeFloat
(TylerAudioCommon.h, lines 33-36):
  return (std::abs(value) < Constants::kDenormalThreshold) ? 0.0f : value;
over the float model with IEEE special values. -/
def sanitizeFloat (value : FVal) : FVal :=
  if value.absF.ltFin kDenormalThreshold then .fin 0 else value

/-- The same sanitizeFloat on finite values only (used inside the
rational-valued embedding of the processing chain). -/
def sanitizeFloatQ (value : ℚ) : ℚ :=
  if |value| < kDenormalThreshold then 0 else value

/-- State of TylerAudio::Utils::SmoothingFilter (TylerAudioCommon.h,
lines 39-69): an atomic target, the current interpolated value and the
smoothing coefficient. -/
structure SmoothingFilter where
  targetValue : ℚ
  currentValue : ℚ
  smoothingCoeff : ℚ
deriving DecidableEq, Repr

/-- SmoothingFilter::setTargetValue. -/
def SmoothingFilter.setTargetValue (s : SmoothingFilter) (newValue : ℚ) :
    SmoothingFilter :=
  { s with targetValue := newValue }

/-- SmoothingFilter::getNextValue (TylerAudioCommon.h, lines 47-52):
  currentValue += (target - currentValue) * smoothingCoeff;
  return sanitizeFloat(currentValue);
The stored state is the unsanitized value; only the returned sample is
sanitized. -/
def SmoothingFilter.getNextValue (s : SmoothingFilter) :
    ℚ × SmoothingFilter :=
  let c := s.currentValue + (s.targetValue - s.currentValue) * s.smoothingCoeff
  (sanitizeFloatQ c, { s with currentValue := c })

/-- SmoothingFilter::snapToTarget. -/
def SmoothingFilter.snapToTarget (s : SmoothingFilter) : SmoothingFilter :=
  { s with currentValue := s.targetValue }

/-- The state after n successive getNextValue calls. -/
def SmoothingFilter.advance (s : SmoothingFilter) : ℕ → SmoothingFilter
  | 0 => s
  | n + 1 => (s.getNextValue.2).advance n

/-- Shallow embedding of SmoothingFilter::setSmoothingTime
(TylerAudioCommon.h, lines 54-57):
  smoothingCoeff = 1.0 - std::exp(-1.0 / (smoothingTimeSeconds * sampleRate));
as a relation over the reals (Real.exp is noncomputable).  In IEEE double
arithmetic a zero product gives -1.0/0.0 = -infinity and exp(-infinity) = 0,
hence coefficient 1; the zero case is therefore split off explicitly, since
over the reals division by zero yields zero, not infinity. -/
def setSmoothingTimeRel (smoothingTimeSeconds sampleRate coeff : ℝ) : Prop :=
  (smoothingTimeSeconds * sampleRate = 0 ∧ coeff = 1) ∨
  (smoothingTimeSeconds * sampleRate ≠ 0 ∧
    coeff = 1 - Real.exp (-1 / (smoothingTimeSeconds * sampleRate)))

end Utils

end TylerAudio

namespace TingeTape

open TylerAudio.Utils

/-- juce::jlimit(lowerLimit, upperLimit, value):
  value < lowerLimit ? lowerLimit : (upperLimit < value ? upperLimit : value). -/
def jlimit (lowerLimit upperLimit value : ℚ) : ℚ :=
  if value < lowerLimit then lowerLimit
  else if upperLimit < value then upperLimit
  else value

/-- Coefficients of one normalized (a0 = 1) second-order IIR section, as
held by juce::dsp::IIR::Coefficients<float>. -/
structure BiquadCoeffs where
  b0 : ℚ
  b1 : ℚ
  b2 : ℚ
  a1 : ℚ
  a2 : ℚ
deriving DecidableEq, Repr

/-- Internal state of juce::dsp::IIR::Filter<float> (transposed direct
form II, two state variables). -/
structure BiquadState where
  v1 : ℚ
  v2 : ℚ
deriving DecidableEq, Repr

/-- juce::dsp::IIR::Filter<float>::processSample (transposed direct form
II):  y = b0 x + v1;  v1 = b1 x - a1 y + v2;  v2 = b2 x - a2 y. -/
def Biquad.processSample (c : BiquadCoeffs) (st : BiquadState) (x : ℚ) :
    ℚ × BiquadState :=
  let y := c.b0 * x + st.v1
  (y, ⟨c.b1 * x - c.a1 * y + st.v2, c.b2 * x - c.a2 * y⟩)

/-- Block-wise run of one IIR section over a whole channel. -/
def Biquad.processChannel (c : BiquadCoeffs) (st : BiquadState) :
    List ℚ → List ℚ × BiquadState
  | [] => ([], st)
  | x :: xs =>
    let r := Biquad.processSample c st x
    let rest := Biquad.processChannel c r.2 xs
    (r.1 :: rest.1, rest.2)

/-- External library functions called by the plugin, modelled as explicit
parameters.  wave n is the value returned by the n-th call of
lfo.processSample(0.0f) since the last reset of the juce oscillator (a
0.5 Hz sine lookup table in the source); tanh is std::tanh; hpCoeffs and
lpCoeffs are juce::dsp::IIR::Coefficients::makeHighPass and makeLowPass on
(sampleRate, frequency, Q); lowShelfCoeffs and highShelfCoeffs are
makeLowShelf and makeHighShelf on (sampleRate, frequency, Q, linearGain);
dbToGain is juce::Decibels::decibelsToGain.  No claim proved below depends
on the numeric values these functions return. -/
structure ExtFns where
  tanh : ℚ → ℚ
  wave : ℕ → ℚ
  hpCoeffs : ℚ → ℚ → ℚ → BiquadCoeffs
  lpCoeffs : ℚ → ℚ → ℚ → BiquadCoeffs
  lowShelfCoeffs : ℚ → ℚ → ℚ → ℚ → BiquadCoeffs
  highShelfCoeffs : ℚ → ℚ → ℚ → ℚ → BiquadCoeffs
  dbToGain : ℚ → ℚ

/-- juce::dsp::DelayLine<float> (default linear interpolation) as used by
the WowEngine: an allocated capacity, the current fractional delay, and
the pushed samples (most recent first; the sample pushed most recently is
at integer delay 0). -/
structure DelayLine where
  maximumDelayInSamples : ℤ
  delay : ℚ
  contents : List ℚ
deriving DecidableEq, Repr

/-- DelayLine::setDelay. -/
def DelayLine.setDelay (d : DelayLine) (newDelay : ℚ) : DelayLine :=
  { d with delay := newDelay }

/-- DelayLine::pushSample. -/
def DelayLine.pushSample (d : DelayLine) (s : ℚ) : DelayLine :=
  { d with contents := s :: d.contents }

/-- DelayLine::popSample with linear interpolation: reads the samples at
integer distances floor(delay) and floor(delay)+1 behind the write head
and interpolates with the fractional part (missing history reads as 0). -/
def DelayLine.popSample (d : DelayLine) : ℚ :=
  let i : ℕ := (⌊d.delay⌋).toNat
  let frac : ℚ := d.delay - (i : ℚ)
  let v1 := d.contents.getD i 0
  let v2 := d.contents.getD (i + 1) 0
  v1 + frac * (v2 - v1)

/-- State of TingeTapeAudioProcessor::WowEngine (PluginProcessor.h, lines
71-89).  The juce oscillator is modelled by the number of advances since
reset (lfoStep); the waveform stream itself is an ExtFns parameter. -/
structure WowEngine where
  depth : ℚ
  sampleRate : ℚ
  numChannels : ℤ
  currentDelay : ℚ
  lfoStep : ℕ
  delayLines : List DelayLine
deriving DecidableEq, Repr

/-- WowEngine::kWowFrequency = 0.5f Hz. -/
def WowEngine.kWowFrequency : ℚ := 1 / 2

/-- WowEngine::kMaxDelayMs = 50. -/
def WowEngine.kMaxDelayMs : ℚ := 50

/-- WowEngine::prepare (PluginProcessor.cpp, lines 455-474): stores the
sample rate and channel count, sizes one delay line per channel with
capacity static_cast<int>(sampleRate * kMaxDelayMs / 1000.0f) (truncation
toward zero, i.e. the floor for the nonnegative rates used), and ends in
reset(), clearing the lines, the oscillator phase and currentDelay.  The
depth field is left as it was. -/
def WowEngine.prepare (w : WowEngine) (sampleRate : ℚ) (numChannels : ℤ) :
    WowEngine :=
  { w with
    sampleRate := sampleRate
    numChannels := numChannels
    delayLines :=
      List.replicate numChannels.toNat
        ⟨⌊sampleRate * WowEngine.kMaxDelayMs / 1000⌋, 0, []⟩
    lfoStep := 0
    currentDelay := 0 }

/-- WowEngine::setDepth: depth = jlimit(0, 100, depth) / 100. -/
def WowEngine.setDepth (w : WowEngine) (depth : ℚ) : WowEngine :=
  { w with depth := jlimit 0 100 depth / 100 }

/-- The delay computation inside WowEngine::getNextSample
(PluginProcessor.cpp, lines 489-502):
  modulatedDelayMs  = 5 + lfoValue * depth * 45;
  modulatedDelaySamples = modulatedDelayMs * sampleRate / 1000;
  maxDelaySamples = sampleRate * kMaxDelayMs / 1000;
  currentDelay = jlimit(1, maxDelaySamples - 1, modulatedDelaySamples). -/
def WowEngine.computeDelaySamples (sampleRate depth lfoValue : ℚ) : ℚ :=
  let baseDelayMs : ℚ := 5
  let maxModulationMs : ℚ := 45
  let modulatedDelayMs := baseDelayMs + lfoValue * depth * maxModulationMs
  let modulatedDelaySamples := modulatedDelayMs * sampleRate / 1000
  let maxDelaySamples := sampleRate * WowEngine.kMaxDelayMs / 1000
  jlimit 1 (maxDelaySamples - 1) modulatedDelaySamples

/-- WowEngine::getNextSample (PluginProcessor.cpp, lines 481-509).  The
guard returns the input unchanged when depth <= 0.001f or the channel
index is not below numChannels; otherwise one oscillator sample is
consumed (advancing the oscillator), the modulated delay is computed and
clamped, and the channel's delay line is set, pushed and popped. -/
def WowEngine.getNextSample (wave : ℕ → ℚ) (w : WowEngine) (input : ℚ)
    (channel : ℤ) : ℚ × WowEngine :=
  if w.depth ≤ 1 / 1000 ∨ w.numChannels ≤ channel then (input, w)
  else
    let lfoValue := wave w.lfoStep
    let currentDelay :=
      WowEngine.computeDelaySamples w.sampleRate w.depth lfoValue
    let line := w.delayLines.getD channel.toNat ⟨0, 0, []⟩
    let line1 := (line.setDelay currentDelay).pushSample input
    (line1.popSample,
      { w with
        lfoStep := w.lfoStep + 1
        currentDelay := currentDelay
        delayLines := w.delayLines.set channel.toNat line1 })

/-- State of TingeTapeAudioProcessor::TapeSaturation (PluginProcessor.h,
lines 99-113). -/
structure TapeSaturation where
  drive : ℚ
  previousSample : ℚ
deriving DecidableEq, Repr

/-- TapeSaturation::kHighFreqRolloff = 0.9f. -/
def TapeSaturation.kHighFreqRolloff : ℚ := 9 / 10

/-- TapeSaturation::setDrive: drive = jlimit(0, 100, drive) / 100. -/
def TapeSaturation.setDrive (s : TapeSaturation) (drive : ℚ) :
    TapeSaturation :=
  { s with drive := jlimit 0 100 drive / 100 }

/-- TapeSaturation::processSample (PluginProcessor.cpp, lines 531-564)
over the rationals with std::tanh supplied externally.  The final
FP_SUBNORMAL flush affects only nonzero values of magnitude below the
float subnormal bound 2^(-126). -/
def TapeSaturation.processSample (tanhF : ℚ → ℚ) (s : TapeSaturation)
    (input : ℚ) : ℚ × TapeSaturation :=
  if s.drive ≤ 1 / 1000 then (input, s)
  else
    let driveGain := 1 + s.drive * 9
    let drivenInput := input * driveGain
    let sample0 := tanhF drivenInput
    let sample1 :=
      if 1 / 1000 < driveGain then sample0 / tanhF driveGain else sample0
    let rolloffAmount := TapeSaturation.kHighFreqRolloff + s.drive * (8 / 100)
    let alpha := jlimit (1 / 10) (98 / 100) rolloffAmount
    let prev := alpha * s.previousSample + (1 - alpha) * sample1
    let compensationFactor := 1 / (1 + s.drive * (1 / 2))
    let sample2 := prev * compensationFactor
    let sample3 :=
      if |sample2| < 1 / 2 ^ 126 ∧ sample2 ≠ 0 then 0 else sample2
    (sample3, { s with previousSample := prev })

/-- TapeSaturation over the reals, for the claims whose truth depends on
the analytic behaviour of std::tanh. -/
structure TapeSaturationR where
  drive : ℝ
  previousSample : ℝ

/-- TapeSaturation::processSample (PluginProcessor.cpp, lines 531-564) as
a step relation over the reals using Real.tanh (noncomputable, hence a
relation rather than a function).  jlimit(0.1, 0.98, v) is written as the
equal clamp max 0.1 (min 0.98 v); the FP_SUBNORMAL flush is the final
disjunction (nonzero magnitudes below 2^(-126) are zeroed). -/
def TapeSaturationR.processSampleRel (s : TapeSaturationR)
    (input output : ℝ) (s' : TapeSaturationR) : Prop :=
  (s.drive ≤ 1 / 1000 ∧ output = input ∧ s' = s) ∨
  (¬ s.drive ≤ 1 / 1000 ∧
    ∃ sample1 prev out0 : ℝ,
      ((1 / 1000 < 1 + s.drive * 9 ∧
          sample1 = Real.tanh (input * (1 + s.drive * 9)) /
            Real.tanh (1 + s.drive * 9)) ∨
        (¬ 1 / 1000 < 1 + s.drive * 9 ∧
          sample1 = Real.tanh (input * (1 + s.drive * 9)))) ∧
      prev = max (1 / 10) (min (98 / 100) (9 / 10 + s.drive * (8 / 100))) *
            s.previousSample +
          (1 - max (1 / 10) (min (98 / 100) (9 / 10 + s.drive * (8 / 100)))) *
            sample1 ∧
      out0 = prev * (1 / (1 + s.drive * (1 / 2))) ∧
      ((|out0| < 1 / 2 ^ 126 ∧ out0 ≠ 0 ∧ output = 0) ∨
        (¬ (|out0| < 1 / 2 ^ 126 ∧ out0 ≠ 0) ∧ output = out0)) ∧
      s' = ⟨s.drive, prev⟩)

/-- State of TingeTapeAudioProcessor::ToneControl (PluginProcessor.h,
lines 116-131). -/
structure ToneControl where
  currentTone : ℚ
  sampleRate : ℚ
  lowShelfCoefficients : BiquadCoeffs
  highShelfCoefficients : BiquadCoeffs
  lowShelfState : BiquadState
  highShelfState : BiquadState
deriving DecidableEq, Repr

/-- The shelf gain computation inside ToneControl::updateCoefficients
(PluginProcessor.cpp, lines 618-639):
  maxGainDb = 6;  gainDb = currentTone * maxGainDb;
  low shelf gain = -gainDb;  high shelf gain = +gainDb (both in dB). -/
def ToneControl.shelfGainsDb (currentTone : ℚ) : ℚ × ℚ :=
  let maxGainDb : ℚ := 6
  let gainDb := currentTone * maxGainDb
  (-gainDb, gainDb)

/-- ToneControl::updateCoefficients (PluginProcessor.cpp, lines 618-639):
rebuilds both shelf filters at the fixed frequencies 250 Hz and 5000 Hz,
Q = 0.707, with the complementary decibel gains of shelfGainsDb converted
to linear gain by juce::Decibels::decibelsToGain. -/
def ToneControl.updateCoefficients (ext : ExtFns) (tc : ToneControl) :
    ToneControl :=
  let g := ToneControl.shelfGainsDb tc.currentTone
  { tc with
    lowShelfCoefficients :=
      ext.lowShelfCoeffs tc.sampleRate 250 (707 / 1000) (ext.dbToGain g.1)
    highShelfCoefficients :=
      ext.highShelfCoeffs tc.sampleRate 5000 (707 / 1000) (ext.dbToGain g.2) }

/-- ToneControl::setTone (PluginProcessor.cpp, lines 588-597): normalize
to [-1, 1] and recompute the coefficients only when the normalized value
moved by more than 0.001. -/
def ToneControl.setTone (ext : ExtFns) (tc : ToneControl) (tone : ℚ) :
    ToneControl :=
  let newTone := jlimit (-100) 100 tone / 100
  if 1 / 1000 < |newTone - tc.currentTone| then
    ToneControl.updateCoefficients ext { tc with currentTone := newTone }
  else tc

/-- ToneControl::processSample (PluginProcessor.cpp, lines 599-610). -/
def ToneControl.processSample (tc : ToneControl) (input : ℚ) :
    ℚ × ToneControl :=
  if |tc.currentTone| ≤ 1 / 1000 then (input, tc)
  else
    let r1 := Biquad.processSample tc.lowShelfCoefficients tc.lowShelfState input
    let r2 := Biquad.processSample tc.highShelfCoefficients tc.highShelfState r1.1
    (r2.1, { tc with lowShelfState := r1.2, highShelfState := r2.2 })

/-- State of TingeTapeAudioProcessor (PluginProcessor.h): the seven
parameter smoothers, the two block filters of the ProcessorDuplicator
(shared coefficients, one biquad state per channel), the three DSP
components, the sample rate and the bypass parameter as read at block
start. -/
structure Processor where
  sampleRate : ℚ
  bypassParam : Bool
  wowSmoother : SmoothingFilter
  lowCutFreqSmoother : SmoothingFilter
  lowCutResSmoother : SmoothingFilter
  highCutFreqSmoother : SmoothingFilter
  highCutResSmoother : SmoothingFilter
  dirtSmoother : SmoothingFilter
  toneSmoother : SmoothingFilter
  lowCutCoefficients : BiquadCoeffs
  highCutCoefficients : BiquadCoeffs
  lowCutStates : List BiquadState
  highCutStates : List BiquadState
  tapeSaturation : TapeSaturation
  toneControl : ToneControl
  wowEngine : WowEngine
deriving DecidableEq, Repr

/-- juce::AudioBuffer::getSample via the AudioBlock wrapper. -/
def getSample (buffer : List (List ℚ)) (channel i : ℕ) : ℚ :=
  (buffer.getD channel []).getD i 0

/-- juce::AudioBuffer::setSample via the AudioBlock wrapper. -/
def setSample (buffer : List (List ℚ)) (channel i : ℕ) (v : ℚ) :
    List (List ℚ) :=
  buffer.set channel ((buffer.getD channel []).set i v)

/-- The clearing loop at the top of processBlock (PluginProcessor.cpp,
lines 203-205): channels with index at least totalNumInputChannels are
zeroed over the first numSamples samples (every channel holds exactly
numSamples samples); i is the index of the first channel of the list. -/
def clearUnused (totalNumInputChannels numSamples : ℕ) :
    ℕ → List (List ℚ) → List (List ℚ)
  | _, [] => []
  | i, ch :: rest =>
    (if totalNumInputChannels ≤ i then List.replicate numSamples 0 else ch) ::
      clearUnused totalNumInputChannels numSamples (i + 1) rest

/-- TingeTapeAudioProcessor::updateFilters (PluginProcessor.cpp, lines
265-287): advances each of the four filter smoothers once, clamps both
cutoff frequencies to at least 20 Hz (juce::jmax) and rebuilds the
high-pass and low-pass coefficients. -/
def updateFilters (ext : ExtFns) (p : Processor) : Processor :=
  let rLcf := p.lowCutFreqSmoother.getNextValue
  let rLcr := p.lowCutResSmoother.getNextValue
  let rHcf := p.highCutFreqSmoother.getNextValue
  let rHcr := p.highCutResSmoother.getNextValue
  let clampedLowCutFreq := max 20 rLcf.1
  let clampedHighCutFreq := max 20 rHcf.1
  { p with
    lowCutFreqSmoother := rLcf.2
    lowCutResSmoother := rLcr.2
    highCutFreqSmoother := rHcf.2
    highCutResSmoother := rHcr.2
    lowCutCoefficients := ext.hpCoeffs p.sampleRate clampedLowCutFreq rLcr.1
    highCutCoefficients := ext.lpCoeffs p.sampleRate clampedHighCutFreq rHcr.1 }

/-- juce::dsp::ProcessorDuplicator processing with ProcessContextReplacing:
each channel of the block runs through its own IIR state with the shared
coefficients. -/
def duplicatorProcess (c : BiquadCoeffs) :
    List (List ℚ) → List BiquadState → List (List ℚ) × List BiquadState
  | [], states => ([], states)
  | ch :: chs, states =>
    let r := Biquad.processChannel c (states.headD ⟨0, 0⟩) ch
    let rest := duplicatorProcess c chs states.tail
    (r.1 :: rest.1, r.2 :: rest.2)

/-- The inner per-channel loop of processBlock (PluginProcessor.cpp, lines
238-257) for one sample index i: saturation, tone control and wow share
one instance of state across the channels, the output is sanitized and
written back. -/
def processChannels (ext : ExtFns) (i : ℕ) :
    List ℕ →
      TapeSaturation × ToneControl × WowEngine × List (List ℚ) →
      TapeSaturation × ToneControl × WowEngine × List (List ℚ)
  | [], st => st
  | channel :: rest, (sat, tc, wow, buffer) =>
    let v0 := getSample buffer channel i
    let r1 := TapeSaturation.processSample ext.tanh sat v0
    let r2 := ToneControl.processSample tc r1.1
    let r3 := WowEngine.getNextSample ext.wave wow r2.1 (channel : ℤ)
    processChannels ext i rest
      (r1.2, r2.2, r3.2, setSample buffer channel i (sanitizeFloatQ r3.1))

/-- The outer per-sample loop of processBlock (PluginProcessor.cpp, lines
225-258): for each sample index, the dirt, tone and wow smoothers advance
once, the three DSP components take the smoothed parameters, and every
channel is processed. -/
def processSamples (ext : ExtFns) :
    List ℕ → Processor × List (List ℚ) → Processor × List (List ℚ)
  | [], st => st
  | i :: rest, (p, buffer) =>
    let rDirt := p.dirtSmoother.getNextValue
    let rTone := p.toneSmoother.getNextValue
    let rWow := p.wowSmoother.getNextValue
    let r :=
      processChannels ext i (List.range buffer.length)
        (p.tapeSaturation.setDrive rDirt.1,
          ToneControl.setTone ext p.toneControl rTone.1,
          p.wowEngine.setDepth rWow.1,
          buffer)
    processSamples ext rest
      ({ p with
          dirtSmoother := rDirt.2
          toneSmoother := rTone.2
          wowSmoother := rWow.2
          tapeSaturation := r.1
          toneControl := r.2.1
          wowEngine := r.2.2.1 }, r.2.2.2)

/-- TingeTapeAudioProcessor::processBlock (PluginProcessor.cpp, lines
194-262): clear the output channels beyond the input channel count,
return early when bypassed, otherwise update the filter coefficients from
the smoothed parameters, run the low-cut filter block-wise, run the
per-sample chain (saturation, tone, wow, sanitization), and finish with
the block-wise high-cut filter. -/
def processBlock (ext : ExtFns) (totalNumInputChannels : ℕ) (p : Processor)
    (buffer : List (List ℚ)) : Processor × List (List ℚ) :=
  let numSamples := (buffer.headD []).length
  let cleared := clearUnused totalNumInputChannels numSamples 0 buffer
  if p.bypassParam then (p, cleared)
  else
    let p1 := updateFilters ext p
    let rLow := duplicatorProcess p1.lowCutCoefficients cleared p1.lowCutStates
    let p2 := { p1 with lowCutStates := rLow.2 }
    let rMid := processSamples ext (List.range numSamples) (p2, rLow.1)
    let p3 := rMid.1
    let rHigh := duplicatorProcess p3.highCutCoefficients rMid.2 p3.highCutStates
    ({ p3 with highCutStates := rHigh.2 }, rHigh.1)

/-- Concrete external functions for evaluating the embedding on closed
inputs (the properties checked on them do not depend on the values these
functions return). -/
def extTriv : ExtFns :=
  ⟨fun q => q, fun _ => 0, fun _ _ _ => ⟨1, 0, 0, 0, 0⟩,
    fun _ _ _ => ⟨1, 0, 0, 0, 0⟩, fun _ _ _ _ => ⟨1, 0, 0, 0, 0⟩,
    fun _ _ _ _ => ⟨1, 0, 0, 0, 0⟩, fun _ => 1⟩

/-- External functions whose oscillator stream takes distinct values on
its first two samples, as any sine table does away from the extrema. -/
def extWave : ExtFns :=
  { extTriv with wave := fun n => if n = 0 then 0 else 1 / 2 }

/-- A concrete processor state prepared at 44100 Hz for two channels,
with every parameter smoother at rest at zero. -/
def procBase : Processor :=
  { sampleRate := 44100
    bypassParam := false
    wowSmoother := ⟨0, 0, 0⟩
    lowCutFreqSmoother := ⟨0, 0, 0⟩
    lowCutResSmoother := ⟨0, 0, 0⟩
    highCutFreqSmoother := ⟨0, 0, 0⟩
    highCutResSmoother := ⟨0, 0, 0⟩
    dirtSmoother := ⟨0, 0, 0⟩
    toneSmoother := ⟨0, 0, 0⟩
    lowCutCoefficients := ⟨1, 0, 0, 0, 0⟩
    highCutCoefficients := ⟨1, 0, 0, 0, 0⟩
    lowCutStates := [⟨0, 0⟩, ⟨0, 0⟩]
    highCutStates := [⟨0, 0⟩, ⟨0, 0⟩]
    tapeSaturation := ⟨0, 0⟩
    toneControl := ⟨0, 44100, ⟨1, 0, 0, 0, 0⟩, ⟨1, 0, 0, 0, 0⟩, ⟨0, 0⟩, ⟨0, 0⟩⟩
    wowEngine := ⟨0, 44100, 2, 0, 0, [⟨2205, 0, []⟩, ⟨2205, 0, []⟩]⟩ }

/-- procBase with the wow smoother resting at 100 percent depth. -/
def procWow : Processor := { procBase with wowSmoother := ⟨100, 100, 0⟩ }

/-- procBase with the low-cut frequency smoother mid-transition: target 1,
current value 0, coefficient one half. -/
def procSmooth : Processor :=
  { procBase with lowCutFreqSmoother := ⟨1, 0, 1 / 2⟩ }

/-- procBase with the bypass parameter engaged. -/
def procBypass : Processor := { procBase with bypassParam := true }

end TingeTape

open TylerAudio.Utils TingeTape

/-- Helper: jlimit really clamps into [lowerLimit, upperLimit] whenever the
limits are ordered. -/
theorem jlimit_mem_of_le (lo hi v : ℚ) (h : lo ≤ hi) :
    lo ≤ jlimit lo hi v ∧ jlimit lo hi v ≤ hi := by
  unfold jlimit
  split_ifs with h1 h2 <;> constructor <;> linarith

/-- C1, counterexample: the per-sample sanitization of processBlock is
TylerAudio::Utils::sanitizeFloat, and under IEEE comparison semantics the
test std::abs(value) < 1e-15 is false for NaN and for both infinities, so
sanitizeFloat returns every non-finite value unchanged: non-finite values
produced in the chain are not neutralized, refuting the claim. -/
theorem sanitizeFloat_passes_nonfinite :
    sanitizeFloat FVal.nan = FVal.nan ∧
    sanitizeFloat FVal.posInf = FVal.posInf ∧
    sanitizeFloat FVal.negInf = FVal.negInf ∧
    FVal.nan ≠ FVal.fin 0 ∧ FVal.posInf ≠ FVal.fin 0 := by
  decide

/-- C1, amended: every sample written back in the per-sample loop passes
through sanitizeFloat, which flushes denormal values (magnitude below
1e-15) to exactly zero and returns every other finite value unchanged;
NaN and infinite values are not neutralized. -/
theorem sanitizeFloat_flushes_denormals (q : ℚ) :
    (|q| < kDenormalThreshold →
      sanitizeFloat (FVal.fin q) = FVal.fin 0 ∧ sanitizeFloatQ q = 0) ∧
    (kDenormalThreshold ≤ |q| →
      sanitizeFloat (FVal.fin q) = FVal.fin q ∧ sanitizeFloatQ q = q) := by
  unfold sanitizeFloat sanitizeFloatQ FVal.absF FVal.ltFin
  constructor <;> intro h
  · simp [h]
  · have h1 : ¬ |q| < kDenormalThreshold := not_lt.mpr h
    simp [h1]

/-- C1, witness for the amended theorem at the denormal input 1e-16. -/
theorem sanitizeFloat_flushes_denormals_witness :
    |(1 / 10 ^ 16 : ℚ)| < kDenormalThreshold ∧
    sanitizeFloat (FVal.fin (1 / 10 ^ 16)) = FVal.fin 0 := by
  have habs : |(1 / 10 ^ 16 : ℚ)| < kDenormalThreshold := by
    rw [abs_of_pos (by norm_num : (0 : ℚ) < 1 / 10 ^ 16)]
    norm_num [kDenormalThreshold]
  exact ⟨habs, ((sanitizeFloat_flushes_denormals (1 / 10 ^ 16)).1 habs).1⟩

/-- C4, counterexample: at sample rate 44100, depth 100 percent and LFO
value -1 (the trough of the bipolar sine), the delay computed by
WowEngine::getNextSample clamps to 1 sample, far below the 5 ms base delay
of 220.5 samples, refuting the claimed lower bound baseDelay. -/
theorem wow_delay_below_base_delay :
    WowEngine.computeDelaySamples 44100 1 (-1) = 1 ∧
    (1 : ℚ) < 5 * 44100 / 1000 := by
  constructor
  · simp only [WowEngine.computeDelaySamples, WowEngine.kMaxDelayMs, jlimit]
    norm_num
  · norm_num

/-- C4, amended: for every sample rate of at least 40 Hz, every depth in
[0, 1] and every LFO value in [-1, 1], the modulated delay set by
WowEngine::getNextSample lies in [1 sample, maxDelaySamples - 1], hence in
particular below baseDelay + maxModulation = 50 ms, and strictly below the
capacity allocated by WowEngine::prepare for every delay line; the lower
bound is 1 sample, not the 5 ms base delay. -/
theorem wow_delay_clamped_bounds (sr depth lfo : ℚ) (w : WowEngine) (n : ℤ)
    (hsr : 40 ≤ sr) (_hd0 : 0 ≤ depth) (_hd1 : depth ≤ 1)
    (_hl0 : -1 ≤ lfo) (_hl1 : lfo ≤ 1) :
    1 ≤ WowEngine.computeDelaySamples sr depth lfo ∧
    WowEngine.computeDelaySamples sr depth lfo ≤ sr * 50 / 1000 - 1 ∧
    ∀ line ∈ (w.prepare sr n).delayLines,
      WowEngine.computeDelaySamples sr depth lfo <
        (line.maximumDelayInSamples : ℚ) := by
  have hhi : (1 : ℚ) ≤ sr * 50 / 1000 - 1 := by linarith
  have hmem :=
    jlimit_mem_of_le 1 (sr * 50 / 1000 - 1)
      ((5 + lfo * depth * 45) * sr / 1000) hhi
  have hunfold : WowEngine.computeDelaySamples sr depth lfo =
      jlimit 1 (sr * 50 / 1000 - 1) ((5 + lfo * depth * 45) * sr / 1000) := by
    simp [WowEngine.computeDelaySamples, WowEngine.kMaxDelayMs]
  refine ⟨by rw [hunfold]; exact hmem.1, by rw [hunfold]; exact hmem.2, ?_⟩
  intro line hline
  have hline1 : line = ⟨⌊sr * WowEngine.kMaxDelayMs / 1000⌋, 0, []⟩ :=
    List.eq_of_mem_replicate hline
  have hfl : sr * 50 / 1000 - 1 < (⌊sr * 50 / 1000⌋ : ℚ) :=
    Int.sub_one_lt_floor (sr * 50 / 1000)
  rw [hline1, hunfold]
  simp only [WowEngine.kMaxDelayMs]
  calc jlimit 1 (sr * 50 / 1000 - 1) ((5 + lfo * depth * 45) * sr / 1000) ≤
      sr * 50 / 1000 - 1 := hmem.2
    _ < (⌊sr * 50 / 1000⌋ : ℚ) := hfl

/-- C4, witness for the amended theorem at 44100 Hz, depth one half, LFO
value one half. -/
theorem wow_delay_clamped_bounds_witness :
    (40 : ℚ) ≤ 44100 ∧ 1 ≤ WowEngine.computeDelaySamples 44100 (1 / 2) (1 / 2) :=
  ⟨by norm_num,
    (wow_delay_clamped_bounds 44100 (1 / 2) (1 / 2) procBase.wowEngine 2
      (by norm_num) (by norm_num) (by norm_num) (by norm_num) (by norm_num)).1⟩

/-- C9: ToneControl::updateCoefficients sets the shelf gains
complementarily: with gainDb = currentTone * 6 (a fixed single-digit
ceiling), the low shelf receives -gainDb and the high shelf +gainDb in
decibels, so tone +1 gives (-6 dB, +6 dB), tone -1 gives (+6 dB, -6 dB)
and tone 0 gives (0 dB, 0 dB); the coefficients are rebuilt at the fixed
shelf frequencies 250 Hz and 5000 Hz from exactly these gains. -/
theorem tone_control_tilt_gains (ext : ExtFns) (tc : ToneControl) (t : ℚ)
    (h1 : -1 ≤ t) (h2 : t ≤ 1) :
    (ToneControl.shelfGainsDb t).1 = -(t * 6) ∧
    (ToneControl.shelfGainsDb t).2 = t * 6 ∧
    (t = 1 → ToneControl.shelfGainsDb t = (-6, 6)) ∧
    (t = -1 → ToneControl.shelfGainsDb t = (6, -6)) ∧
    (t = 0 → ToneControl.shelfGainsDb t = (0, 0)) ∧
    (ToneControl.updateCoefficients ext tc).lowShelfCoefficients =
      ext.lowShelfCoeffs tc.sampleRate 250 (707 / 1000)
        (ext.dbToGain (-(tc.currentTone * 6))) ∧
    (ToneControl.updateCoefficients ext tc).highShelfCoefficients =
      ext.highShelfCoeffs tc.sampleRate 5000 (707 / 1000)
        (ext.dbToGain (tc.currentTone * 6)) := by
  refine ⟨rfl, rfl, ?_, ?_, ?_, rfl, rfl⟩
  all_goals intro ht; subst ht; simp [ToneControl.shelfGainsDb]

/-- C9, witness at tone +1 on a concrete tone control state. -/
theorem tone_control_tilt_gains_witness :
    ((-1 : ℚ) ≤ 1) ∧ ToneControl.shelfGainsDb 1 = (-6, 6) :=
  ⟨by norm_num,
    (tone_control_tilt_gains extTriv procBase.toneControl 1 (by norm_num)
      (by norm_num)).2.2.1 rfl⟩

/-- C10: WowEngine::getNextSample returns the input unchanged and leaves
the whole engine state (all delay lines and the oscillator) untouched for
every channel index at or beyond the prepared channel count. -/
theorem wow_invalid_channel_passthrough (wave : ℕ → ℚ) (w : WowEngine)
    (input : ℚ) (channel : ℤ) (h : w.numChannels ≤ channel) :
    WowEngine.getNextSample wave w input channel = (input, w) := by
  unfold WowEngine.getNextSample
  rw [if_pos (Or.inr h)]

/-- C10, witness at channel 5 of a two-channel engine. -/
theorem wow_invalid_channel_passthrough_witness :
    procBase.wowEngine.numChannels ≤ 5 ∧
    WowEngine.getNextSample extTriv.wave procBase.wowEngine 1 5 =
      (1, procBase.wowEngine) :=
  ⟨by decide,
    wow_invalid_channel_passthrough extTriv.wave procBase.wowEngine 1 5
      (by decide)⟩

/-- C6, counterexample: calling setSmoothingTime with seconds = -1 and
sampleRate = 1 (product -1, hence non-positive) yields the coefficient
1 - exp(1), which is not 1: the immediate-tracking default claimed for all
non-positive products does not hold for negative ones. -/
theorem setSmoothingTime_negative_not_one :
    setSmoothingTimeRel (-1) 1 (1 - Real.exp 1) ∧ 1 - Real.exp 1 ≠ (1 : ℝ) := by
  constructor
  · refine Or.inr ⟨by norm_num, ?_⟩
    norm_num
  · have h := Real.exp_pos 1
    intro hc
    have : Real.exp 1 = 0 := by linarith
    exact absurd this (ne_of_gt h)

/-- C6, amended: the coefficient computed by setSmoothingTime is 1 exactly
when seconds * sampleRate is zero (the IEEE division by zero gives
exp(-infinity) = 0, never NaN); for a negative product the coefficient is
1 - exp of a positive number, which is negative, not 1; for a positive
product it lies strictly between 0 and 1. -/
theorem setSmoothingTime_coeff_cases (t sr c : ℝ)
    (h : setSmoothingTimeRel t sr c) :
    (t * sr = 0 → c = 1) ∧ (t * sr < 0 → c < 0) ∧
    (0 < t * sr → 0 < c ∧ c < 1) := by
  rcases h with ⟨hz, hc⟩ | ⟨hnz, hc⟩
  · exact ⟨fun _ => hc, fun hlt => absurd hz hlt.ne,
      fun hgt => absurd hz hgt.ne.symm⟩
  · refine ⟨fun hz => absurd hz hnz, fun hlt => ?_, fun hgt => ?_⟩
    · have harg : 0 < -1 / (t * sr) := div_pos_of_neg_of_neg (by norm_num) hlt
      have hexp : 1 < Real.exp (-1 / (t * sr)) :=
        Real.one_lt_exp_iff.mpr harg
      rw [hc]; linarith
    · have harg : -1 / (t * sr) < 0 := div_neg_of_neg_of_pos (by norm_num) hgt
      have hexp1 : Real.exp (-1 / (t * sr)) < 1 :=
        Real.exp_lt_one_iff.mpr harg
      have hexp0 := Real.exp_pos (-1 / (t * sr))
      rw [hc]; constructor <;> linarith

/-- C6, witness for the amended theorem: with seconds = -1, sampleRate = 1
the relation holds at the computed coefficient, and that coefficient is
negative. -/
theorem setSmoothingTime_coeff_cases_witness :
    setSmoothingTimeRel (-1) 1 (1 - Real.exp (-1 / ((-1) * 1))) ∧
    1 - Real.exp (-1 / ((-1) * 1)) < 0 := by
  have hrel : setSmoothingTimeRel (-1) 1 (1 - Real.exp (-1 / ((-1) * 1))) :=
    Or.inr ⟨by norm_num, rfl⟩
  exact ⟨hrel,
    (setSmoothingTime_coeff_cases (-1) 1 _ hrel).2.1 (by norm_num)⟩

/-- Helper: the n+1st smoother state is one getNextValue step past the
nth. -/
theorem smoothing_advance_succ (s : SmoothingFilter) (n : ℕ) :
    s.advance (n + 1) = (s.advance n).getNextValue.2 := by
  induction n generalizing s with
  | zero => rfl
  | succ n ih =>
    rw [SmoothingFilter.advance, ih, SmoothingFilter.advance]

/-- Helper: advancing never changes the target. -/
theorem smoothing_advance_target (s : SmoothingFilter) (n : ℕ) :
    (s.advance n).targetValue = s.targetValue := by
  induction n generalizing s with
  | zero => rfl
  | succ n ih => rw [SmoothingFilter.advance, ih]; rfl

/-- Helper: advancing never changes the coefficient. -/
theorem smoothing_advance_coeff (s : SmoothingFilter) (n : ℕ) :
    (s.advance n).smoothingCoeff = s.smoothingCoeff := by
  induction n generalizing s with
  | zero => rfl
  | succ n ih => rw [SmoothingFilter.advance, ih]; rfl

/-- Helper: the one-step recurrence of the interpolated value. -/
theorem smoothing_step (s : SmoothingFilter) (n : ℕ) :
    (s.advance (n + 1)).currentValue =
      (s.advance n).currentValue +
        (s.targetValue - (s.advance n).currentValue) * s.smoothingCoeff := by
  rw [smoothing_advance_succ]
  show (s.advance n).currentValue +
      ((s.advance n).targetValue - (s.advance n).currentValue) *
        (s.advance n).smoothingCoeff = _
  rw [smoothing_advance_target, smoothing_advance_coeff]

/-- Helper: exact geometric decay of the distance to the target. -/
theorem smoothing_geometric (s : SmoothingFilter) (n : ℕ) :
    s.targetValue - (s.advance n).currentValue =
      (s.targetValue - s.currentValue) * (1 - s.smoothingCoeff) ^ n := by
  induction n with
  | zero => simp [SmoothingFilter.advance]
  | succ n ih =>
    have h := smoothing_step s n
    calc s.targetValue - (s.advance (n + 1)).currentValue =
        (s.targetValue - (s.advance n).currentValue) *
          (1 - s.smoothingCoeff) := by rw [h]; ring
      _ = (s.targetValue - s.currentValue) * (1 - s.smoothingCoeff) ^ n *
          (1 - s.smoothingCoeff) := by rw [ih]
      _ = (s.targetValue - s.currentValue) * (1 - s.smoothingCoeff) ^ (n + 1) := by
        ring

/-- C8: with a smoothing coefficient in [0, 1] (the code default is 0.01
and every coefficient computed from a positive smoothing time lies in
(0, 1)), the interpolated value of repeated getNextValue calls satisfies
the exact geometric law, approaches the target monotonically from either
side without ever overshooting it, the returned sample is the sanitized
interpolated value and differs from it by less than the denormal
threshold, and for a positive coefficient the distance to the target
eventually falls below every positive epsilon. -/
theorem smoothing_filter_convergence (s : SmoothingFilter)
    (hc0 : 0 ≤ s.smoothingCoeff) (hc1 : s.smoothingCoeff ≤ 1) :
    (∀ n, s.targetValue - (s.advance n).currentValue =
      (s.targetValue - s.currentValue) * (1 - s.smoothingCoeff) ^ n) ∧
    (∀ n, s.currentValue ≤ s.targetValue →
      (s.advance n).currentValue ≤ (s.advance (n + 1)).currentValue ∧
        (s.advance n).currentValue ≤ s.targetValue) ∧
    (∀ n, s.targetValue ≤ s.currentValue →
      (s.advance (n + 1)).currentValue ≤ (s.advance n).currentValue ∧
        s.targetValue ≤ (s.advance n).currentValue) ∧
    (∀ n, (s.advance n).getNextValue.1 =
      sanitizeFloatQ ((s.advance (n + 1)).currentValue) ∧
      |(s.advance n).getNextValue.1 - (s.advance (n + 1)).currentValue| <
        kDenormalThreshold) ∧
    (0 < s.smoothingCoeff → ∀ ε : ℚ, 0 < ε →
      ∃ n, |s.targetValue - (s.advance n).currentValue| < ε) := by
  have hpow : ∀ n : ℕ, (0 : ℚ) ≤ (1 - s.smoothingCoeff) ^ n := fun n =>
    pow_nonneg (by linarith) n
  refine ⟨smoothing_geometric s, ?_, ?_, ?_, ?_⟩
  · intro n hle
    have hgap : 0 ≤ s.targetValue - (s.advance n).currentValue := by
      rw [smoothing_geometric s n]
      exact mul_nonneg (by linarith) (hpow n)
    constructor
    · rw [smoothing_step s n]
      nlinarith
    · linarith
  · intro n hle
    have hgap : s.targetValue - (s.advance n).currentValue ≤ 0 := by
      rw [smoothing_geometric s n]
      exact mul_nonpos_of_nonpos_of_nonneg (by linarith) (hpow n)
    constructor
    · rw [smoothing_step s n]
      nlinarith
    · linarith
  · intro n
    constructor
    · rw [smoothing_advance_succ]
      rfl
    · rw [smoothing_advance_succ]
      show |sanitizeFloatQ ((s.advance n).getNextValue.2.currentValue) -
        (s.advance n).getNextValue.2.currentValue| < kDenormalThreshold
      set v := (s.advance n).getNextValue.2.currentValue with hv
      unfold sanitizeFloatQ
      split_ifs with h
      · rw [zero_sub, abs_neg]
        exact h
      · simp [kDenormalThreshold]
  · intro hcpos ε hε
    by_cases he : s.targetValue - s.currentValue = 0
    · refine ⟨0, ?_⟩
      show |s.targetValue - (s.advance 0).currentValue| < ε
      have : (s.advance 0).currentValue = s.currentValue := rfl
      rw [this, he, abs_zero]
      exact hε
    · have habs : 0 < |s.targetValue - s.currentValue| := abs_pos.mpr he
      obtain ⟨n, hn⟩ :=
        exists_pow_lt_of_lt_one (div_pos hε habs)
          (by linarith : 1 - s.smoothingCoeff < 1)
      refine ⟨n, ?_⟩
      rw [smoothing_geometric s n, abs_mul, abs_pow,
        abs_of_nonneg (by linarith : (0 : ℚ) ≤ 1 - s.smoothingCoeff)]
      calc |s.targetValue - s.currentValue| * (1 - s.smoothingCoeff) ^ n <
          |s.targetValue - s.currentValue| *
            (ε / |s.targetValue - s.currentValue|) := by
            exact mul_lt_mul_of_pos_left hn habs
        _ = ε := mul_div_cancel₀ ε (ne_of_gt habs)

/-- C8, witness: the geometric law evaluated after two steps on the
smoother with target 1, current value 0 and coefficient one half. -/
theorem smoothing_filter_convergence_witness :
    (0 : ℚ) ≤ (⟨1, 0, 1 / 2⟩ : SmoothingFilter).smoothingCoeff ∧
    (⟨1, 0, 1 / 2⟩ : SmoothingFilter).targetValue -
        ((⟨1, 0, 1 / 2⟩ : SmoothingFilter).advance 2).currentValue =
      ((⟨1, 0, 1 / 2⟩ : SmoothingFilter).targetValue -
          (⟨1, 0, 1 / 2⟩ : SmoothingFilter).currentValue) *
        (1 - (⟨1, 0, 1 / 2⟩ : SmoothingFilter).smoothingCoeff) ^ 2 :=
  ⟨by norm_num,
    (smoothing_filter_convergence ⟨1, 0, 1 / 2⟩ (by norm_num)
      (by norm_num)).1 2⟩

/-- Helper: the clearing loop leaves every channel below the input count
untouched. -/
theorem clearUnused_keeps_inputs (nIn N : ℕ) (buf : List (List ℚ)) :
    ∀ i0 j, i0 + j < nIn →
      (clearUnused nIn N i0 buf).getD j [] = buf.getD j [] := by
  induction buf with
  | nil => intro i0 j _; simp [clearUnused]
  | cons ch rest ih =>
    intro i0 j h
    cases j with
    | zero =>
      have hi : ¬ nIn ≤ i0 := by omega
      simp [clearUnused, hi]
    | succ j =>
      show (clearUnused nIn N i0 (ch :: rest)).getD (j + 1) [] = _
      rw [clearUnused]
      rw [List.getD_cons_succ, List.getD_cons_succ]
      exact ih (i0 + 1) j (by omega)

/-- Helper: the clearing loop zeroes every channel at or beyond the input
count. -/
theorem clearUnused_clears (nIn N : ℕ) (buf : List (List ℚ)) :
    ∀ i0 j, nIn ≤ i0 + j → j < buf.length →
      (clearUnused nIn N i0 buf).getD j [] = List.replicate N 0 := by
  induction buf with
  | nil => intro i0 j _ hj; simp at hj
  | cons ch rest ih =>
    intro i0 j h hj
    cases j with
    | zero =>
      have hi : nIn ≤ i0 := by omega
      simp [clearUnused, hi]
    | succ j =>
      show (clearUnused nIn N i0 (ch :: rest)).getD (j + 1) [] = _
      rw [clearUnused]
      rw [List.getD_cons_succ]
      exact ih (i0 + 1) j (by omega) (by simpa using hj)

/-- C7: when the bypass parameter reads true at block start, processBlock
returns the processor state unchanged and the buffer with every input
channel bit-for-bit intact; the only write is the zeroing of the output
channels at or beyond the input channel count. -/
theorem processBlock_bypass_transparent (ext : ExtFns) (numIn : ℕ)
    (p : Processor) (buffer : List (List ℚ)) (h : p.bypassParam = true) :
    processBlock ext numIn p buffer =
      (p, clearUnused numIn (buffer.headD []).length 0 buffer) ∧
    (∀ j, j < numIn →
      (processBlock ext numIn p buffer).2.getD j [] = buffer.getD j []) ∧
    (∀ j, numIn ≤ j → j < buffer.length →
      (processBlock ext numIn p buffer).2.getD j [] =
        List.replicate (buffer.headD []).length 0) := by
  have h1 : processBlock ext numIn p buffer =
      (p, clearUnused numIn (buffer.headD []).length 0 buffer) := by
    simp [processBlock, h]
  refine ⟨h1, ?_, ?_⟩
  · intro j hj
    rw [h1]
    exact clearUnused_keeps_inputs _ _ _ 0 j (by omega)
  · intro j hj1 hj2
    rw [h1]
    exact clearUnused_clears _ _ _ 0 j (by omega) hj2

/-- C7, witness: a bypassed two-channel block passes channel 0 through
unmodified. -/
theorem processBlock_bypass_transparent_witness :
    procBypass.bypassParam = true ∧
    (processBlock extTriv 1 procBypass [[1, 2], [3, 4]]).2.getD 0 [] =
      [1, 2] := by
  have hb : procBypass.bypassParam = true := rfl
  have h :=
    (processBlock_bypass_transparent extTriv 1 procBypass
      [[1, 2], [3, 4]] hb).2.1 0 (by norm_num)
  exact ⟨hb, h.trans rfl⟩

/-- Helper: through the per-sample loop the dirt, tone and wow smoothers
advance once per processed sample and the four filter smoothers are never
touched. -/
theorem processSamples_smoother_fields (ext : ExtFns) :
    ∀ (l : List ℕ) (p : Processor) (buf : List (List ℚ)),
      (processSamples ext l (p, buf)).1.dirtSmoother =
          p.dirtSmoother.advance l.length ∧
        (processSamples ext l (p, buf)).1.toneSmoother =
          p.toneSmoother.advance l.length ∧
        (processSamples ext l (p, buf)).1.wowSmoother =
          p.wowSmoother.advance l.length ∧
        (processSamples ext l (p, buf)).1.lowCutFreqSmoother =
          p.lowCutFreqSmoother ∧
        (processSamples ext l (p, buf)).1.lowCutResSmoother =
          p.lowCutResSmoother ∧
        (processSamples ext l (p, buf)).1.highCutFreqSmoother =
          p.highCutFreqSmoother ∧
        (processSamples ext l (p, buf)).1.highCutResSmoother =
          p.highCutResSmoother := by
  intro l
  induction l with
  | nil =>
    intro p buf
    exact ⟨rfl, rfl, rfl, rfl, rfl, rfl, rfl⟩
  | cons i rest ih =>
    intro p buf
    simp only [processSamples]
    obtain ⟨h1, h2, h3, h4, h5, h6, h7⟩ := ih _ _
    refine ⟨h1.trans ?_, h2.trans ?_, h3.trans ?_, h4, h5, h6, h7⟩
    all_goals simp only [List.length_cons]; rfl

/-- Helper: over a non-bypassed block the wow, dirt and tone smoothers
advance once per sample of the block while the four filter smoothers
advance exactly once, inside updateFilters. -/
theorem processBlock_smoothers_helper (ext : ExtFns) (numIn : ℕ)
    (p : Processor) (buffer : List (List ℚ)) (h : p.bypassParam = false) :
    (processBlock ext numIn p buffer).1.wowSmoother =
        p.wowSmoother.advance (buffer.headD []).length ∧
      (processBlock ext numIn p buffer).1.dirtSmoother =
        p.dirtSmoother.advance (buffer.headD []).length ∧
      (processBlock ext numIn p buffer).1.toneSmoother =
        p.toneSmoother.advance (buffer.headD []).length ∧
      (processBlock ext numIn p buffer).1.lowCutFreqSmoother =
        p.lowCutFreqSmoother.advance 1 ∧
      (processBlock ext numIn p buffer).1.lowCutResSmoother =
        p.lowCutResSmoother.advance 1 ∧
      (processBlock ext numIn p buffer).1.highCutFreqSmoother =
        p.highCutFreqSmoother.advance 1 ∧
      (processBlock ext numIn p buffer).1.highCutResSmoother =
        p.highCutResSmoother.advance 1 := by
  unfold processBlock
  rw [h]
  simp only [Bool.false_eq_true, if_false]
  refine ⟨?_, ?_, ?_, ?_, ?_, ?_, ?_⟩
  · rw [(processSamples_smoother_fields ext _ _ _).2.2.1]
    show (updateFilters ext p).wowSmoother.advance (List.range _).length = _
    rw [List.length_range]
    rfl
  · rw [(processSamples_smoother_fields ext _ _ _).1]
    show (updateFilters ext p).dirtSmoother.advance (List.range _).length = _
    rw [List.length_range]
    rfl
  · rw [(processSamples_smoother_fields ext _ _ _).2.1]
    show (updateFilters ext p).toneSmoother.advance (List.range _).length = _
    rw [List.length_range]
    rfl
  · rw [(processSamples_smoother_fields ext _ _ _).2.2.2.1]
    rfl
  · rw [(processSamples_smoother_fields ext _ _ _).2.2.2.2.1]
    rfl
  · rw [(processSamples_smoother_fields ext _ _ _).2.2.2.2.2.1]
    rfl
  · rw [(processSamples_smoother_fields ext _ _ _).2.2.2.2.2.2]
    rfl

/-- C5, counterexample: a non-bypassed block of 2 samples advances the
low-cut frequency smoother only once (its interpolated value moves from 0
to 1/2), not once per sample (which would give 3/4): the four filter
smoothers advance per block inside updateFilters, refuting the claim that
every smoother advances N times. -/
theorem filter_smoothers_advance_once_per_block :
    procSmooth.bypassParam = false ∧
    (([[0, 0]] : List (List ℚ)).headD []).length = 2 ∧
    (processBlock extTriv 1 procSmooth [[0, 0]]).1.lowCutFreqSmoother.currentValue =
      1 / 2 ∧
    (procSmooth.lowCutFreqSmoother.advance 2).currentValue = 3 / 4 ∧
    (1 / 2 : ℚ) ≠ 3 / 4 := by
  refine ⟨rfl, rfl, ?_, ?_, by norm_num⟩
  · rw [(processBlock_smoothers_helper extTriv 1 procSmooth [[0, 0]]
      rfl).2.2.2.1]
    show ((procSmooth.lowCutFreqSmoother.getNextValue.2).advance 0).currentValue = 1 / 2
    show procSmooth.lowCutFreqSmoother.currentValue +
      (procSmooth.lowCutFreqSmoother.targetValue -
        procSmooth.lowCutFreqSmoother.currentValue) *
        procSmooth.lowCutFreqSmoother.smoothingCoeff = 1 / 2
    show (0 : ℚ) + (1 - 0) * (1 / 2) = 1 / 2
    norm_num
  · show (((procSmooth.lowCutFreqSmoother.getNextValue.2).getNextValue.2).advance 0).currentValue = 3 / 4
    show ((0 : ℚ) + (1 - 0) * (1 / 2)) +
      (1 - ((0 : ℚ) + (1 - 0) * (1 / 2))) * (1 / 2) = 3 / 4
    norm_num

/-- C5, amended: in every non-bypassed block of N samples the wow, dirt
and tone smoothers advance their interpolation step exactly N times (once
per processed sample), while the low-cut frequency, low-cut Q, high-cut
frequency and high-cut Q smoothers advance exactly once per block, inside
updateFilters. -/
theorem processBlock_smoother_advance_counts (ext : ExtFns) (numIn : ℕ)
    (p : Processor) (buffer : List (List ℚ)) (h : p.bypassParam = false) :
    (processBlock ext numIn p buffer).1.wowSmoother =
        p.wowSmoother.advance (buffer.headD []).length ∧
      (processBlock ext numIn p buffer).1.dirtSmoother =
        p.dirtSmoother.advance (buffer.headD []).length ∧
      (processBlock ext numIn p buffer).1.toneSmoother =
        p.toneSmoother.advance (buffer.headD []).length ∧
      (processBlock ext numIn p buffer).1.lowCutFreqSmoother =
        p.lowCutFreqSmoother.advance 1 ∧
      (processBlock ext numIn p buffer).1.lowCutResSmoother =
        p.lowCutResSmoother.advance 1 ∧
      (processBlock ext numIn p buffer).1.highCutFreqSmoother =
        p.highCutFreqSmoother.advance 1 ∧
      (processBlock ext numIn p buffer).1.highCutResSmoother =
        p.highCutResSmoother.advance 1 :=
  processBlock_smoothers_helper ext numIn p buffer h

/-- C5, witness for the amended theorem: the wow smoother of a concrete
non-bypassed 2-sample block advances exactly twice. -/
theorem processBlock_smoother_advance_counts_witness :
    procSmooth.bypassParam = false ∧
    (processBlock extTriv 1 procSmooth [[0, 0]]).1.wowSmoother =
      procSmooth.wowSmoother.advance 2 :=
  ⟨rfl,
    (processBlock_smoother_advance_counts extTriv 1 procSmooth [[0, 0]]
      rfl).1⟩

/-- C3: processing one stereo sample tick (prepared at 44100 Hz, wow depth
100 percent, two channels) advances the wow LFO twice, once per channel,
not once per tick, and the two channels receive delays computed from
different oscillator samples (the oscillator stream extWave.wave takes the
values 0 and 1/2 on its first two samples): the code calls
lfo.processSample once per channel inside the per-channel loop, so the
channels are not driven by one shared LFO value, contradicting the claim
and the comment in the source. -/
theorem wow_lfo_advances_per_channel :
    (processBlock extWave 2 procWow [[1], [1]]).1.wowEngine.lfoStep = 2 ∧
    (processBlock extWave 2 procWow [[1], [1]]).1.wowEngine.lfoStep ≠ 1 ∧
    ((processBlock extWave 2 procWow [[1], [1]]).1.wowEngine.delayLines.getD 0
        ⟨0, 0, []⟩).delay = 441 / 2 ∧
    ((processBlock extWave 2 procWow [[1], [1]]).1.wowEngine.delayLines.getD 1
        ⟨0, 0, []⟩).delay = 4851 / 4 ∧
    (441 / 2 : ℚ) ≠ 4851 / 4 := by
  norm_num [processBlock, clearUnused, updateFilters, duplicatorProcess,
    Biquad.processChannel, Biquad.processSample, processSamples,
    processChannels, getSample, setSample, sanitizeFloatQ,
    kDenormalThreshold, TapeSaturation.processSample, TapeSaturation.setDrive,
    ToneControl.setTone, ToneControl.processSample,
    ToneControl.updateCoefficients, ToneControl.shelfGainsDb,
    WowEngine.getNextSample, WowEngine.setDepth,
    WowEngine.computeDelaySamples, WowEngine.kMaxDelayMs, DelayLine.setDelay,
    DelayLine.pushSample, DelayLine.popSample, jlimit,
    SmoothingFilter.getNextValue, extWave, extTriv, procWow, procBase,
    List.range]

/-- Helper: tanh expressed through the exponential. -/
theorem tanh_exp_formula (x : ℝ) :
    Real.tanh x = (Real.exp x - Real.exp (-x)) / (Real.exp x + Real.exp (-x)) := by
  rw [Real.tanh_eq_sinh_div_cosh, Real.sinh_eq, Real.cosh_eq]
  have h : (0 : ℝ) < Real.exp x + Real.exp (-x) := by positivity
  field_simp

/-- Helper: tanh 10 is at least nine tenths. -/
theorem tanh_ten_low : (9 / 10 : ℝ) ≤ Real.tanh 10 := by
  rw [tanh_exp_formula]
  have hu : (0 : ℝ) < Real.exp 10 := Real.exp_pos _
  have hv : (0 : ℝ) < Real.exp (-10) := Real.exp_pos _
  have huv : Real.exp 10 * Real.exp (-10) = 1 := by
    rw [← Real.exp_add]; norm_num
  have h11 : (11 : ℝ) ≤ Real.exp 10 := by
    have := Real.add_one_le_exp (10 : ℝ); linarith
  rw [le_div_iff (by positivity)]
  nlinarith [mul_nonneg (by linarith : (0 : ℝ) ≤ Real.exp 10 - 11) hv.le]

/-- Helper: tanh never exceeds one on the values used here. -/
theorem tanh_ten_le_one : Real.tanh 10 ≤ 1 := by
  rw [tanh_exp_formula]
  have hv : (0 : ℝ) < Real.exp (-10) := Real.exp_pos _
  rw [div_le_one (by positivity)]
  linarith

/-- Helper: exp of one fifth is at most five fourths. -/
theorem exp_fifth_le : Real.exp (1 / 5) ≤ 5 / 4 := by
  have h45 : (4 / 5 : ℝ) ≤ Real.exp (-(1 / 5)) := by
    have := Real.add_one_le_exp (-(1 / 5) : ℝ); linarith
  have hprod : Real.exp (1 / 5) * Real.exp (-(1 / 5)) = 1 := by
    rw [← Real.exp_add]; norm_num
  nlinarith [Real.exp_pos (1 / 5 : ℝ), Real.exp_pos (-(1 / 5) : ℝ)]

/-- Helper: exp of minus one fifth is at most five sixths. -/
theorem exp_neg_fifth_le : Real.exp (-(1 / 5)) ≤ 5 / 6 := by
  have h65 : (6 / 5 : ℝ) ≤ Real.exp (1 / 5) := by
    have := Real.add_one_le_exp ((1 / 5) : ℝ); linarith
  have hprod : Real.exp (1 / 5) * Real.exp (-(1 / 5)) = 1 := by
    rw [← Real.exp_add]; norm_num
  nlinarith [Real.exp_pos (1 / 5 : ℝ), Real.exp_pos (-(1 / 5) : ℝ)]

/-- Helper: tanh of one tenth is at most one ninth. -/
theorem tanh_tenth_up : Real.tanh (1 / 10) ≤ 1 / 9 := by
  rw [tanh_exp_formula]
  have hu : (0 : ℝ) < Real.exp (1 / 10) := Real.exp_pos _
  have hv : (0 : ℝ) < Real.exp (-(1 / 10)) := Real.exp_pos _
  have huv : Real.exp (1 / 10) * Real.exp (-(1 / 10)) = 1 := by
    rw [← Real.exp_add]; norm_num
  have hsq : Real.exp (1 / 10) * Real.exp (1 / 10) = Real.exp (1 / 5) := by
    rw [← Real.exp_add]; norm_num
  have hb := exp_fifth_le
  rw [div_le_div_iff (by positivity) (by norm_num)]
  nlinarith [mul_pos hu hv, mul_pos hu hu]

/-- Helper: tanh of one tenth is at least one twenty-fifth. -/
theorem tanh_tenth_low : (1 / 25 : ℝ) ≤ Real.tanh (1 / 10) := by
  rw [tanh_exp_formula]
  have hu : (0 : ℝ) < Real.exp (1 / 10) := Real.exp_pos _
  have hv : (0 : ℝ) < Real.exp (-(1 / 10)) := Real.exp_pos _
  have huv : Real.exp (1 / 10) * Real.exp (-(1 / 10)) = 1 := by
    rw [← Real.exp_add]; norm_num
  have hsq : Real.exp (-(1 / 10)) * Real.exp (-(1 / 10)) = Real.exp (-(1 / 5)) := by
    rw [← Real.exp_add]; norm_num
  have hb := exp_neg_fifth_le
  rw [div_le_div_iff (by norm_num) (by positivity)]
  nlinarith [mul_pos hu hv, mul_pos hv hv]

/-- Helper: bounds on the steady-state output of the saturation stage at
drive 100 percent and input one hundredth. -/
theorem c2_output_bounds :
    (2 / 75 : ℝ) ≤ Real.tanh (1 / 10) / Real.tanh 10 * (2 / 3) ∧
    Real.tanh (1 / 10) / Real.tanh 10 * (2 / 3) ≤ 20 / 243 := by
  have h10pos : (0 : ℝ) < Real.tanh 10 := lt_of_lt_of_le (by norm_num) tanh_ten_low
  have hup : Real.tanh (1 / 10) / Real.tanh 10 ≤ 10 / 81 := by
    have h := div_le_div (by norm_num : (0 : ℝ) ≤ 1 / 9) tanh_tenth_up
      (by norm_num : (0 : ℝ) < 9 / 10) tanh_ten_low
    calc Real.tanh (1 / 10) / Real.tanh 10 ≤ (1 / 9) / (9 / 10) := h
      _ = 10 / 81 := by norm_num
  have hlow : (1 / 25 : ℝ) ≤ Real.tanh (1 / 10) / Real.tanh 10 := by
    rw [le_div_iff h10pos]
    nlinarith [tanh_tenth_low, tanh_ten_le_one]
  constructor
  · linarith [hlow]
  · linarith [hup]

/-- C2: the claim fails on the code and against the repository's own test
(test_tingetape_saturation_detailed.cpp requires low-level gain
1 + (drive/100)*9 within margin 0.2).  At drive 100 percent the drive-gain
is 10 and the tanh normalization alone would give low-level gain 10, but
processSample then multiplies by the level-compensation factor
1/(1 + drive*0.5) = 2/3: at the DC steady state of the rolloff filter
(previousSample already at its fixed point) with input 1/100, the output
is tanh(1/10)/tanh(10) * 2/3 < 0.098, while a gain of 10 within the
margin would require at least 0.098.  The actual low-level gain is about
6.67, not 10. -/
theorem saturation_drive_scaling_law_fails (out : ℝ) (s' : TapeSaturationR)
    (h : TapeSaturationR.processSampleRel
      ⟨1, Real.tanh (1 / 10) / Real.tanh 10⟩ (1 / 100) out s') :
    out = Real.tanh (1 / 10) / Real.tanh 10 * (2 / 3) ∧
    out < 49 / 500 ∧
    s'.previousSample = Real.tanh (1 / 10) / Real.tanh 10 := by
  obtain ⟨hle, -, -⟩ | ⟨-, sample1, prev, out0, hs1, hp, ho, hsub, hs'⟩ := h
  · norm_num at hle
  · have hs1eq : sample1 = Real.tanh (1 / 10) / Real.tanh 10 := by
      obtain ⟨-, he⟩ | ⟨hcon, -⟩ := hs1
      · rw [he]; norm_num
      · norm_num at hcon
    have hprev : prev = Real.tanh (1 / 10) / Real.tanh 10 := by
      rw [hp, hs1eq]
      norm_num [max_def, min_def]
      ring
    have hout0 : out0 = Real.tanh (1 / 10) / Real.tanh 10 * (2 / 3) := by
      rw [ho, hprev]; norm_num
    have hbounds := c2_output_bounds
    have hout : out = out0 := by
      obtain ⟨habs, -, -⟩ | ⟨-, he⟩ := hsub
      · rw [hout0] at habs
        rw [abs_of_pos (by nlinarith [hbounds.1])] at habs
        nlinarith [hbounds.1]
      · exact he
    refine ⟨hout.trans hout0, ?_, ?_⟩
    · rw [hout, hout0]
      nlinarith [hbounds.2]
    · rw [hs', hprev]

/-- C2, witness: the step relation holds at the failing input (drive 100
percent, DC fixed point, input 1/100) with the computed output, and that
output is below the smallest value compatible with the claimed gain. -/
theorem saturation_drive_scaling_law_fails_witness :
    TapeSaturationR.processSampleRel ⟨1, Real.tanh (1 / 10) / Real.tanh 10⟩
      (1 / 100) (Real.tanh (1 / 10) / Real.tanh 10 * (2 / 3))
      ⟨1, Real.tanh (1 / 10) / Real.tanh 10⟩ ∧
    Real.tanh (1 / 10) / Real.tanh 10 * (2 / 3) < 49 / 500 := by
  have hbounds := c2_output_bounds
  have hrel : TapeSaturationR.processSampleRel
      ⟨1, Real.tanh (1 / 10) / Real.tanh 10⟩ (1 / 100)
      (Real.tanh (1 / 10) / Real.tanh 10 * (2 / 3))
      ⟨1, Real.tanh (1 / 10) / Real.tanh 10⟩ := by
    refine Or.inr ⟨by norm_num, Real.tanh (1 / 10) / Real.tanh 10,
      Real.tanh (1 / 10) / Real.tanh 10,
      Real.tanh (1 / 10) / Real.tanh 10 * (2 / 3),
      Or.inl ⟨by norm_num, by norm_num⟩, ?_, ?_, ?_, ?_⟩
    · norm_num [max_def, min_def]
      ring
    · norm_num
    · refine Or.inr ⟨?_, rfl⟩
      rintro ⟨habs, -⟩
      rw [abs_of_pos (by nlinarith [hbounds.1])] at habs
      nlinarith [hbounds.1]
    · rfl
  exact ⟨hrel, (saturation_drive_scaling_law_fails _ _ hrel).2.1⟩
